import Mathlib

/-
Verification of the firebase-to-supabase migration toolkit against its
design specification.

Part 1 (`Firestore2Json`) embeds the document-tree exporter of
src/unnamed/part_000 (compiled firestore2json): root-collection paging
(`getBatch`/`getAll`), identity-field stamping, and the subcollection walk
(`exportSubcollectionsAsSeparateFiles`).

Part 2 (`MigrateFunctions`) embeds src/functions/migrate-functions.js:
the body extractor (`extractFunctionBody`), the API rewriter
(`convertFirebaseToSupabase`), the scanner's pattern-key normalization
(`normalizeType` and the per-key type overrides), and the orchestrator's
migrated/failed counters (`createEdgeFunctions`).

JavaScript objects are modelled with explicit optional fields (`none` =
absent); JS truthiness of a string field is `truthy`; JS string coercion of
`undefined` in concatenation is `jsString`.  The unbounded JS loops are
modelled with explicit fuel, and their termination is proved where claimed.
-/

namespace Firestore2Json

/-- Data of one Firestore document as the exporter sees it: the four
candidate identity fields checked at src/unnamed/part_000 lines 166-173,
the linkage fields stamped by the subcollection walk (lines 245-253), each
`Option String` (`none` = field absent).  Other document fields do not
influence any of the exporter's control decisions and are omitted. -/
structure DocData where
  firestore_id : Option String := none
  firestoreid : Option String := none
  original_id : Option String := none
  originalid : Option String := none
  parent_collection : Option String := none
  parent_document_id : Option String := none
  collection_path : Option String := none
deriving Repr, DecidableEq

/-- One fetched Firestore document: its id (`fsdoc.id`) and its data
(`fsdoc.data()`). -/
structure FsDoc where
  id : String
  data : DocData
deriving Repr, DecidableEq

/-- JS truthiness of an optional string field: absent and empty-string are
falsy (`!doc.firestore_id`). -/
def truthy : Option String → Bool
  | none => false
  | some s => s != ("")

/-- JS string coercion used by `+` concatenation: `undefined` becomes the
literal text "undefined". -/
def jsString : Option String → String
  | none => ("undefined")
  | some s => s

/-- Identity stamping of a root-level document, src/unnamed/part_000 lines
166-173: try `firestore_id`, `firestoreid`, `original_id`, `originalid` in
order, writing the document id into the first falsy one; if all four are
truthy nothing is stamped. -/
def stampRootId (fid : String) (d : DocData) : DocData :=
  if truthy d.firestore_id then
    if truthy d.firestoreid then
      if truthy d.original_id then
        if truthy d.originalid then d
        else { d with originalid := some fid }
      else { d with original_id := some fid }
    else { d with firestoreid := some fid }
  else { d with firestore_id := some fid }

/-- Identity stamping of a nested document, src/unnamed/part_000 lines
245-246: only the single candidate `firestore_id` is tried; there is no
alternate-name chain in the subcollection walk. -/
def stampSubId (fid : String) (d : DocData) : DocData :=
  if truthy d.firestore_id then d else { d with firestore_id := some fid }

/-- The `collection_path` assignment of the subcollection walk,
src/unnamed/part_000 lines 251-253.  At depth 0 it is the root path
`parent/parentDocId/sub`; at deeper levels the code reads the nested
document's own raw `collection_path` (JS `docData.collection_path`, which
is `undefined` for a document that does not carry such a field) and appends
"/" and the subcollection name. -/
def collectionPathStamp (currentDepth : Nat)
    (parentCollectionName parentDocId subcollectionName : String)
    (raw : Option String) : String :=
  if currentDepth = 0 then
    parentCollectionName ++ ("/") ++ parentDocId ++ ("/") ++ subcollectionName
  else
    jsString raw ++ ("/") ++ subcollectionName

/-- The sanitizer regex /[^a-zA-Z0-9]/g -> "_" of src/unnamed/part_000
line 233. -/
def sanitizeName (s : String) : String :=
  String.map (fun c => if c.isAlphanum then c else '_') s

/-- Output relation name for one subcollection, src/unnamed/part_000 lines
233-234: at depth 0, `parent_sub` (unsanitized); deeper, the `tablePrefix`
`parent_sanitized-sub`. -/
def tableNameFor (parentCollectionName subcollectionName : String)
    (currentDepth : Nat) : String :=
  let tablePrefix :=
    if currentDepth = 0 then parentCollectionName
    else parentCollectionName ++ ("_") ++ sanitizeName subcollectionName
  if currentDepth = 0 then parentCollectionName ++ ("_") ++ subcollectionName
  else tablePrefix

/-- Stamping of one nested document before it is written, src/unnamed/
part_000 lines 243-253: identity field (`stampSubId`), then the linkage
fields `parent_collection`, `parent_document_id` and `collection_path`
(the latter computed from the document's own raw `collection_path`). -/
def stampSubDoc (parentCollectionName parentDocId subcollectionName : String)
    (currentDepth : Nat) (fid : String) (d : DocData) : DocData :=
  let d1 := stampSubId fid d
  { d1 with
    parent_collection := some parentCollectionName,
    parent_document_id := some parentDocId,
    collection_path := some (collectionPathStamp currentDepth
      parentCollectionName parentDocId subcollectionName d1.collection_path) }

/-- Outcome of fetching one nested collection
(`collection.limit(subcollectionLimit).get()`): the documents, or a raised
error. -/
inductive SubFetch where
  | ok (docs : List FsDoc)
  | err
deriving Repr, DecidableEq

/-- The sibling loop of `exportSubcollectionsAsSeparateFiles`,
src/unnamed/part_000 lines 227-264, run under the single try/catch of lines
217-271: subcollections of one document are processed in order; the first
fetch that raises jumps to the shared catch (line 268-271), which logs the
error and returns, so no later sibling is reached.  Result: the `(table,
record)` pairs written, and whether the catch logged an error.  The
fire-and-forget recursion of line 258 writes only to deeper relations and
has its own catch, so it never adds records of the present level nor
propagates an error; it is therefore not folded into this level's result. -/
def processSubcollections (parentCollectionName parentDocId : String)
    (currentDepth : Nat) :
    List (String × SubFetch) → List (String × DocData) × Bool
  | [] => ([], false)
  | (_, SubFetch.err) :: _ => ([], true)
  | (sub, SubFetch.ok docs) :: rest =>
    let tbl := tableNameFor parentCollectionName sub currentDepth
    let recs := docs.map (fun d =>
      (tbl, stampSubDoc parentCollectionName parentDocId sub currentDepth d.id d.data))
    let r := processSubcollections parentCollectionName parentDocId currentDepth rest
    (recs ++ r.1, r.2)

/-- Entry of `exportSubcollectionsAsSeparateFiles`, src/unnamed/part_000
lines 202-276: the depth guard of lines 212-215, then `listCollections`
(whose own failure is also absorbed by the catch: `none` listing), then the
sibling loop. -/
def exportSubcollectionsAsSeparateFiles (parentCollectionName parentDocId : String)
    (maxDepth currentDepth : Nat)
    (listing : Option (List (String × SubFetch))) : List (String × DocData) × Bool :=
  if maxDepth ≤ currentDepth then ([], false)
  else
    match listing with
    | none => ([], true)
    | some colls =>
      processSubcollections parentCollectionName parentDocId currentDepth colls

/-- Modelled from the spec: `utils.writeRecord` (required from ./utils,
which is not under src/) "writes each relation to a reloadable record store
incrementally" and "accumulates per-relation record counts" (spec section
4.5 / section 2); its effect on the per-collection counter consulted by
`getBatch` is one increment per written record. -/
def writeRecord (counter : Nat) : Nat := counter + 1

/-- One batch fetch, src/unnamed/part_000 lines 130-200, for the root
collection, successful-fetch path, with no `processDocument` hook and
`includeSubcollections = false` (the subcollection branch of lines 174-179
writes only to other relations and does not alter the root batch or the
root counter).  `recordCounters[collectionName]` is the `counter` argument.
The Firestore query of lines 151-153 is
`db.collection(name).limit(batchSize).get()`: it applies only `.limit`,
never `.offset`, so it always returns the first `batchSize` documents of
the collection; the `offset` parameter is received but unused. -/
def getBatch (coll : List FsDoc) (offset batchSize globalLimit counter : Nat) :
    List DocData × Nat :=
  if 0 < globalLimit ∧ globalLimit ≤ counter then ([], counter)
  else
    let bs := if 0 < globalLimit then min batchSize (globalLimit - counter)
      else batchSize
    let fetched := coll.take bs
    let data := fetched.map (fun d => stampRootId d.id d.data)
    (data, data.foldl (fun c _ => writeRecord c) counter)

/-- Outcome of the paging loop under a fuel bound. -/
inductive PagingOutcome where
  | done (counter : Nat)
  | outOfFuel
deriving Repr, DecidableEq

/-- The paging loop `getAll`, src/unnamed/part_000 lines 103-129: fetch a
batch; when it is non-empty, recurse with `offset + data.length`; when it
is empty, clean up and finish.  The recursion has no structural bound in
the source, so it is modelled with explicit fuel; `PagingOutcome.outOfFuel`
means the loop had not finished after `fuel` iterations. -/
def getAll (coll : List FsDoc) (batchSize globalLimit : Nat) :
    Nat → Nat → Nat → PagingOutcome
  | 0, _, _ => PagingOutcome.outOfFuel
  | fuel + 1, offset, counter =>
    let r := getBatch coll offset batchSize globalLimit counter
    if 0 < r.1.length then
      getAll coll batchSize globalLimit fuel (offset + r.1.length) r.2
    else
      PagingOutcome.done r.2

/-- A concrete non-empty root collection with two documents. -/
def twoDocColl : List FsDoc :=
  [{ id := ("d1"), data := {} }, { id := ("d2"), data := {} }]

/-- Concrete nested document list used in counterexamples. -/
def oneGoodDoc : List FsDoc := [{ id := ("g1"), data := {} }]

/-- A document whose `firestore_id` field is already (truthily) occupied. -/
def dConflict : DocData := { firestore_id := some ("old") }

/-- No conflicting field among the four identity-field candidates: all four
candidate fields are falsy on the source document. -/
def noIdConflict (d : DocData) : Prop :=
  truthy d.firestore_id = false ∧ truthy d.firestoreid = false ∧
  truthy d.original_id = false ∧ truthy d.originalid = false

end Firestore2Json

namespace MigrateFunctions

/-- Occurrence count of one character in a character list (used to compare
open- and close-brace counts). -/
def countCh (x : Char) : List Char → Nat
  | [] => 0
  | c :: cs => (if c = x then 1 else 0) + countCh x cs

/-- The scan loop of `extractFunctionBody`,
src/functions/migrate-functions.js lines 290-316, processing the characters
from the start offset: an open brace increments `depth` and switches
`inFunction` on; once `inFunction`, every character is appended to `body`;
a close brace decrements `depth` and, when `depth` hits zero with
`inFunction` set, breaks out of the loop.  The returned flag records which
exit was taken: `true` for the depth-zero break, `false` for running off
the end of the text (the JS function ignores this distinction and returns
`body` either way). -/
def extractLoop : List Char → Int → Bool → List Char → List Char × Bool
  | [], _, _, body => (body, false)
  | c :: rest, depth, inF, body =>
    let depth1 : Int := if c = '{' then depth + 1 else depth
    let inF1 : Bool := if c = '{' then true else inF
    let body1 : List Char := if inF1 then body ++ [c] else body
    if c = '}' then
      if depth1 - 1 = 0 ∧ inF1 = true then (body1, true)
      else extractLoop rest (depth1 - 1) inF1 body1
    else extractLoop rest depth1 inF1 body1

/-- `extractFunctionBody(content, startIndex)`,
src/functions/migrate-functions.js lines 290-316. -/
def extractFunctionBody (content : List Char) (startIndex : Nat) : List Char :=
  (extractLoop (content.drop startIndex) 0 false []).1

/-- The scanner's minimal-content filter, src/functions/migrate-functions.js
line 237: `func.body && func.body.length > 10` (an empty string is falsy). -/
def bodyFilterPass (b : List Char) : Bool :=
  !b.isEmpty && decide (10 < b.length)

/-- Boolean list-prefix test (JS `String.startsWith` shape). -/
def isPrefixL : List Char → List Char → Bool
  | [], _ => true
  | _ :: _, [] => false
  | p :: ps, c :: cs => if p = c then isPrefixL ps cs else false

/-- Boolean substring test, JS `String.includes(pat)`. -/
def containsSub (pat : List Char) : List Char → Bool
  | [] => isPrefixL pat []
  | c :: rest => isPrefixL pat (c :: rest) || containsSub pat rest

/-- A character matched by the JS regex class \w. -/
def isWordChar (c : Char) : Bool := c.isAlphanum || c = '_'

/-- The single-quote character (code 39). -/
def quoteCh : Char := Char.ofNat 39

/-- The double-quote character (code 34). -/
def dquoteCh : Char := Char.ofNat 34

/-- The backtick character (code 96). -/
def btickCh : Char := Char.ofNat 96

/-- A character matched by the JS regex class ['"`] (either quote or
backtick). -/
def isQuoteChar (c : Char) : Bool := c = quoteCh || c = dquoteCh || c = btickCh

/-- A one-element list holding the single-quote character, used to build
replacement texts that contain quotes. -/
def qs : List Char := [quoteCh]

/-- Match a literal character sequence at the head of the text and return
the rest. -/
def dropLit : List Char → List Char → Option (List Char)
  | [], s => some s
  | _ :: _, [] => none
  | p :: ps, c :: cs => if p = c then dropLit ps cs else none

/-- Match one character satisfying `p` at the head of the text. -/
def expectChar (p : Char → Bool) : List Char → Option (Char × List Char)
  | [] => none
  | c :: cs => if p c then some (c, cs) else none

/-- Match a non-empty maximal run of characters satisfying `p` (the JS
greedy `X+` for a character class `X`; since the class and its follower are
disjoint in every rule below, greedy matching without backtracking is the
exact JS behavior). -/
def takeRun (p : Char → Bool) (s : List Char) : Option (List Char × List Char) :=
  let w := s.takeWhile p
  if w.isEmpty then none else some (w, s.dropWhile p)

/-- One rewrite rule of `convertFirebaseToSupabase`,
src/functions/migrate-functions.js lines 764-787: either a literal
pattern/replacement pair, or one of the three capture-group rules. -/
inductive Rule where
  | lit (pat rep : List Char)
  | collectionRule
  | docRule
  | statusRule
deriving Repr

/-- Pattern head of the collection rule. -/
def litCollection : List Char := ((".collection(")).toList

/-- Pattern head of the doc rule. -/
def litDoc : List Char := ((".doc(")).toList

/-- Pattern head of the status rule. -/
def litStatus : List Char := (("res.status(")).toList

/-- Pattern tail of the status rule (after the digits). -/
def litStatusTail : List Char := ((").send(")).toList

/-- Replacement head shared by the response rules. -/
def litRespHead : List Char := (("return new Response(")).toList

/-- The rule /\.collection\(['"`](\w+)['"`]\)/ -> ".from('$1')" of
src/functions/migrate-functions.js line 769, matched at the head of the
text. -/
def matchCollection (s : List Char) : Option (List Char × List Char) := do
  let s1 ← dropLit litCollection s
  let r2 ← expectChar isQuoteChar s1
  let r3 ← takeRun isWordChar r2.2
  let r4 ← expectChar isQuoteChar r3.2
  let r5 ← expectChar (fun c => c == ')') r4.2
  some (((".from(")).toList ++ qs ++ r3.1 ++ qs ++ [')'], r5.2)

/-- The rule /\.doc\(['"`]([^'"`]+)['"`]\)/ -> ".select().eq('id',
'$1').single()" of src/functions/migrate-functions.js line 770, matched at
the head of the text. -/
def matchDoc (s : List Char) : Option (List Char × List Char) := do
  let s1 ← dropLit litDoc s
  let r2 ← expectChar isQuoteChar s1
  let r3 ← takeRun (fun c => !isQuoteChar c) r2.2
  let r4 ← expectChar isQuoteChar r3.2
  let r5 ← expectChar (fun c => c == ')') r4.2
  some (((".select().eq(")).toList ++ qs ++ (("id")).toList ++ qs
    ++ ((", ")).toList ++ qs ++ r3.1 ++ qs ++ ((").single()")).toList, r5.2)

/-- The rule /res\.status\((\d+)\)\.send\(/ -> "return new Response($1, "
of src/functions/migrate-functions.js line 786, matched at the head of the
text. -/
def matchStatus (s : List Char) : Option (List Char × List Char) := do
  let s1 ← dropLit litStatus s
  let r2 ← takeRun Char.isDigit s1
  let s3 ← dropLit litStatusTail r2.2
  some (litRespHead ++ r2.1 ++ ((", ")).toList, s3)

/-- Attempt one rule at the head of the text, returning the replacement
text and the remaining input. -/
def applyRuleAt : Rule → List Char → Option (List Char × List Char)
  | Rule.lit pat rep, s => (dropLit pat s).map (fun rest => (rep, rest))
  | Rule.collectionRule, s => matchCollection s
  | Rule.docRule, s => matchDoc s
  | Rule.statusRule, s => matchStatus s

/-- A rule is well-formed when its pattern cannot match the empty text (a
literal rule with a non-empty pattern; the three capture rules always
consume their literal heads). -/
def ruleWf : Rule → Bool
  | Rule.lit pat _ => !pat.isEmpty
  | _ => true

/-- Global regex replacement as JS `String.replace(/pat/g, rep)` performs
it: scan left to right; at each position try the pattern; on a match emit
the replacement and continue after the match, otherwise emit the character
and move one position right.  `fuel` bounds the number of scan steps; the
totality proof shows `fuel = length of the text` always suffices. -/
def replaceScan (r : Rule) : Nat → List Char → Option (List Char)
  | _, [] => some []
  | 0, _ :: _ => none
  | fuel + 1, c :: rest =>
    match applyRuleAt r (c :: rest) with
    | some g => (replaceScan r fuel g.2).map (fun t => g.1 ++ t)
    | none => (replaceScan r fuel rest).map (fun t => c :: t)

/-- Run one rule over a whole text with the sufficient fuel. -/
def runRule (r : Rule) (s : List Char) : Option (List Char) :=
  replaceScan r s.length s

/-- Run an ordered rule table, each rule over the full result of the
previous one, as the chain of `.replace` calls of
src/functions/migrate-functions.js lines 764-787 does. -/
def runRules : List Rule → List Char → Option (List Char)
  | [], s => some s
  | r :: rs, s => (runRule r s).bind (runRules rs)

/-- The ordered rule table of `convertFirebaseToSupabase`,
src/functions/migrate-functions.js lines 764-787, in source order. -/
def rules : List Rule :=
  [Rule.lit ((("admin.firestore()")).toList) ((("supabaseClient")).toList),
   Rule.lit ((("admin.auth()")).toList) ((("supabaseClient.auth.admin")).toList),
   Rule.lit ((("admin.storage()")).toList) ((("supabaseClient.storage")).toList),
   Rule.collectionRule,
   Rule.docRule,
   Rule.lit (((".get()")).toList) [],
   Rule.lit (((".data()")).toList) [],
   Rule.lit (((".set(")).toList) (((".insert(")).toList),
   Rule.lit (((".update(")).toList) (((".update(")).toList),
   Rule.lit (((".delete()")).toList) (((".delete()")).toList),
   Rule.lit ((("user.uid")).toList) ((("user.id")).toList),
   Rule.lit ((("context.auth.uid")).toList) ((("user.id")).toList),
   Rule.lit ((("admin.firestore.FieldValue.serverTimestamp()")).toList)
     ((("new Date().toISOString()")).toList),
   Rule.lit ((("res.json(")).toList) ((("return new Response(JSON.stringify(")).toList),
   Rule.statusRule,
   Rule.lit ((("res.send(")).toList) ((("return new Response(")).toList)]

/-- The residual token checked at src/functions/migrate-functions.js line
790. -/
def adminTok : List Char := (("admin.")).toList

/-- The residual token checked at src/functions/migrate-functions.js line
794. -/
def functionsTok : List Char := (("functions.")).toList

/-- Review marker prepended for a residual admin-namespace call,
src/functions/migrate-functions.js line 791. -/
def reviewMarkerAdmin : List Char :=
  (("// TODO: Review Firebase Admin SDK usage\n    ")).toList

/-- Review marker prepended for a residual functions-namespace call,
src/functions/migrate-functions.js line 795. -/
def reviewMarkerFunctions : List Char :=
  (("// TODO: Review Firebase Functions usage\n    ")).toList

/-- The common head of both review markers. -/
def reviewMarkerHead : List Char := (("// TODO: Review Firebase ")).toList

/-- The final residual scan of `convertFirebaseToSupabase`,
src/functions/migrate-functions.js lines 790-796: prepend the admin marker
when "admin." is still present, then the functions marker when "functions."
is still present. -/
def addReviewMarkers (s : List Char) : List Char :=
  let s1 := if containsSub adminTok s then reviewMarkerAdmin ++ s else s
  if containsSub functionsTok s1 then reviewMarkerFunctions ++ s1 else s1

/-- `convertFirebaseToSupabase(code)`, src/functions/migrate-functions.js
lines 760-799: the ordered rule table, then the residual-token markers.
`none` would mean some scan ran out of fuel; the totality theorem proves
this never happens. -/
def convertFirebaseToSupabase (code : List Char) : Option (List Char) :=
  (runRules rules code).map addReviewMarkers

/-- A body on which no rewrite rule fires and which still contains a
residual "admin." call. -/
def residualBody : List Char := (("admin.foo(")).toList

/-- One aggregated function record as the orchestrator loop sees it:
its trigger type, and whether writing its output unit raises (the
filesystem outcome is an environment oracle for the try/catch of
src/functions/migrate-functions.js lines 822-870). -/
structure MRecord where
  type : String
  ioFails : Bool
deriving Repr

/-- The seven keys of the `templates` object of `generateEdgeFunction`,
src/functions/migrate-functions.js lines 322-330. -/
def templatesKeys : List String :=
  [("https"), ("callable"), ("firestore"), ("auth"), ("storage"),
   ("pubsub"), ("scheduler")]

/-- Template lookup of `generateEdgeFunction`,
src/functions/migrate-functions.js lines 332-338: `none` embeds the `null`
returned for a type with no registered generator; a registered type yields
its template tag. -/
def generateEdgeFunctionTemplate (t : String) : Option String :=
  if templatesKeys.contains t then some t else none

/-- One iteration of the `createEdgeFunctions` loop,
src/functions/migrate-functions.js lines 821-871, on the (migrated, failed)
counters: a type with no template is skipped with a warning (`continue`,
line 827) touching neither counter; otherwise the record is migrated
(migrated++, line 852) unless some step of the try block raises, in which
case the catch increments failed (line 863). -/
def createEdgeFunctionsStep (acc : Nat × Nat) (r : MRecord) : Nat × Nat :=
  if (generateEdgeFunctionTemplate r.type).isSome then
    if r.ioFails then (acc.1, acc.2 + 1) else (acc.1 + 1, acc.2)
  else acc

/-- The (migrated, failed) counters after `createEdgeFunctions` has
processed every aggregated record (`migrate` sets `total` to the length of
this list, src/functions/migrate-functions.js line 946). -/
def createEdgeFunctions (records : List MRecord) : Nat × Nat :=
  records.foldl createEdgeFunctionsStep (0, 0)

/-- JS `type.includes(pat)` on the pattern-key strings. -/
def containsStr (s pat : String) : Bool := containsSub pat.toList s.toList

/-- `normalizeType`, src/functions/migrate-functions.js lines 249-258. -/
def normalizeType (t : String) : String :=
  if containsStr t (("https")) || containsStr t (("http")) then ("https")
  else if containsStr t (("callable")) then ("callable")
  else if containsStr t (("firestore")) then ("firestore")
  else if containsStr t (("auth")) then ("auth")
  else if containsStr t (("storage")) then ("storage")
  else if containsStr t (("pubsub")) then ("pubsub")
  else if containsStr t (("scheduler")) then ("scheduler")
  else t

/-- The keys of the pattern registry of `parseCloudFunctions`,
src/functions/migrate-functions.js lines 154-185, in source order. -/
def patternKeys : List String :=
  [("https"), ("callable"), ("firestore"), ("auth"), ("storage"),
   ("pubsub"), ("scheduler"), ("https_es6"), ("callable_es6"),
   ("firestore_es6"), ("auth_es6"), ("http_factory"), ("callable_factory"),
   ("firestore_factory"), ("scheduled_factory"), ("export_http"),
   ("export_callable"), ("export_firestore"), ("export_scheduled"),
   ("handler"), ("async_handler")]

/-- The trigger type a record produced from one pattern key carries:
`func.type = normalizeType(key)` (line 193) followed by the override chain
of lines 199-215; `none` embeds the `continue` that skips the handler
pattern families before any record is created (lines 212-215). -/
def recordTypeOfKey (key : String) : Option String :=
  if key = ("http_factory") ∨ key = ("export_http") then some ("https")
  else if key = ("callable_factory") ∨ key = ("export_callable") then some ("callable")
  else if key = ("firestore_factory") ∨ key = ("export_firestore") then some ("firestore")
  else if key = ("scheduled_factory") ∨ key = ("export_scheduled") then some ("scheduler")
  else if containsStr key (("handler")) || containsStr key (("async_handler")) then none
  else some (normalizeType key)

end MigrateFunctions

namespace Firestore2Json

/-- On the two-document collection with `batchSize = 1` and `limit = 0`,
every batch fetch returns the same single first document, whatever the
offset and counter are. -/
theorem getBatch_twoDoc (offset counter : Nat) :
    getBatch twoDocColl offset 1 0 counter
      = ([stampRootId ("d1") {}], counter + 1) := rfl

/-- C1: the claim says paging fetches successive disjoint batches at the
current offset and reaches Done once a fetch is empty or the limit is hit.
The code (src/unnamed/part_000 lines 151-153) never applies the offset to
the query, so on a non-empty root collection with `limit = 0` every
iteration re-fetches the same first batch: the loop never receives an
empty batch and never terminates (here: two documents, `batchSize = 1`,
whatever fuel, offset and counter it starts from), and the fetches at
offsets 0 and 1 return the same, non-disjoint batch. -/
theorem c1_paging_never_terminates :
    ∀ (fuel offset counter : Nat),
      getAll twoDocColl 1 0 fuel offset counter = PagingOutcome.outOfFuel
      ∧ (getBatch twoDocColl 0 1 0 0).1 = (getBatch twoDocColl 1 1 0 0).1 := by
  have key : ∀ fuel offset counter,
      getAll twoDocColl 1 0 fuel offset counter = PagingOutcome.outOfFuel := by
    intro fuel
    induction fuel with
    | zero => intro offset counter; rfl
    | succ n ih =>
      intro offset counter
      simp only [getAll, getBatch_twoDoc]
      simpa using ih (offset + 1) (counter + 1)
  exact fun fuel offset counter => ⟨key fuel offset counter, rfl⟩

/-- C2 counterexample: with two nested collections of the same document,
the first erroring, the sibling after it contributes zero records (the
shared catch aborts the sibling loop), although the same sibling alone
yields its record; this refutes the claim that every sibling collection is
still processed. -/
theorem c2_counterexample :
    (processSubcollections ("users") ("r1") 0
        [(("bad"), SubFetch.err), (("good"), SubFetch.ok oneGoodDoc)]).1 = []
    ∧ (processSubcollections ("users") ("r1") 0
        [(("good"), SubFetch.ok oneGoodDoc)]).1
      = [(("users_good"), stampSubDoc ("users") ("r1") ("good") 0 ("g1") {})] := by
  exact ⟨rfl, rfl⟩

/-- C2 (amended): if fetching one nested collection of a document raises,
the error is logged and that collection and every later sibling collection
of the same document contribute zero records, while the records of the
siblings processed before the failing one are kept; the walk returns
normally, so the parent walk continues unaffected. -/
theorem c2_sibling_containment_amended (p pid : String) (depth : Nat)
    (good : List (String × List FsDoc)) (bad : String)
    (rest : List (String × SubFetch)) :
    processSubcollections p pid depth
        (good.map (fun g => (g.1, SubFetch.ok g.2)) ++ (bad, SubFetch.err) :: rest)
      = (good.flatMap (fun g => g.2.map (fun d =>
          (tableNameFor p g.1 depth,
           stampSubDoc p pid g.1 depth d.id d.data))), true) := by
  induction good with
  | nil => rfl
  | cons g gs ih =>
    simp only [List.map_cons, List.cons_append, List.flatMap_cons,
      processSubcollections, List.append_eq, ih]

/-- C3 counterexample: a nested document whose `firestore_id` is already
truthily occupied while `firestoreid` (the first alternate) is free: the
subcollection walk's stamping (src/unnamed/part_000 lines 245-246) leaves
the record unchanged, storing the original identifier under no alternate
name, refuting the claim for nested records. -/
theorem c3_counterexample :
    truthy dConflict.firestore_id = true
    ∧ truthy dConflict.firestoreid = false
    ∧ stampSubId ("d7") dConflict = dConflict
    ∧ (stampSubId ("d7") dConflict).firestoreid ≠ some ("d7") := by decide

/-- C3 (amended): a record whose source document has no conflicting field
among the four candidates carries the original identifier under
`firestore_id` (the first candidate), for root-level and nested records
alike; when the first candidate is taken, only root-level records store the
identifier under the first free alternate name — a nested record is left
unchanged and its original identifier is dropped. -/
theorem c3_identity_amended (fid : String) (d₁ d₂ d₃ : DocData)
    (h₁ : noIdConflict d₁)
    (h₂ : truthy d₂.firestore_id = true ∧ truthy d₂.firestoreid = false)
    (h₃ : truthy d₃.firestore_id = true) :
    (stampRootId fid d₁).firestore_id = some fid
    ∧ (stampSubId fid d₁).firestore_id = some fid
    ∧ (stampRootId fid d₂).firestoreid = some fid
    ∧ stampSubId fid d₃ = d₃ := by
  obtain ⟨a1, a2, a3, a4⟩ := h₁
  refine ⟨?_, ?_, ?_, ?_⟩
  · simp [stampRootId, a1]
  · simp [stampSubId, a1]
  · simp [stampRootId, h₂.1, h₂.2]
  · simp [stampSubId, h₃]

/-- Witness for C3 at concrete documents: one with all four candidates
free, one with only `firestore_id` occupied. -/
theorem c3_identity_amended_witness :
    (noIdConflict {} ∧ (truthy dConflict.firestore_id = true
        ∧ truthy dConflict.firestoreid = false)
      ∧ truthy dConflict.firestore_id = true)
    ∧ ((stampRootId ("x") {}).firestore_id = some ("x")
      ∧ (stampSubId ("x") {}).firestore_id = some ("x")
      ∧ (stampRootId ("x") dConflict).firestoreid = some ("x")
      ∧ stampSubId ("x") dConflict = dConflict) :=
  ⟨⟨⟨by decide, by decide, by decide, by decide⟩, ⟨by decide, by decide⟩, by decide⟩,
   c3_identity_amended ("x") {} dConflict dConflict
     ⟨by decide, by decide, by decide, by decide⟩
     ⟨by decide, by decide⟩ (by decide)⟩

/-- C4: the claim says a nested document's `collection_path` at depth one
or deeper equals the parent document's own `collection_path` extended with
"/" and the nested collection name, never built from an undefined
component.  The code (src/unnamed/part_000 lines 251-253) instead reads the
nested document's own raw `collection_path` field, which is absent for an
ordinary Firestore document, so the stamped path is the literal string
"undefined/<subcollection>"; at depth 0 the root path is produced as
claimed. -/
theorem c4_collection_path_undefined :
    (stampSubDoc ("users_posts") ("p1") ("comments") 1 ("c1") {}).collection_path
      = some (("undefined/comments"))
    ∧ collectionPathStamp 0 ("users") ("r1") ("posts") none = ("users/r1/posts") := by
  exact ⟨rfl, rfl⟩

end Firestore2Json

namespace MigrateFunctions

/-- Folding the orchestrator step from any starting counters adds exactly
one per record whose type has a registered template. -/
theorem createEdgeFunctions_foldl (records : List MRecord) :
    ∀ m f : Nat,
      (records.foldl createEdgeFunctionsStep (m, f)).1
        + (records.foldl createEdgeFunctionsStep (m, f)).2
      = m + f + (records.filter
          (fun r => (generateEdgeFunctionTemplate r.type).isSome)).length := by
  induction records with
  | nil => intro m f; simp
  | cons r rs ih =>
    intro m f
    rw [List.foldl_cons]
    by_cases h : (generateEdgeFunctionTemplate r.type).isSome
    · rw [List.filter_cons_of_pos (by simpa using h)]
      by_cases hio : r.ioFails
      · have hstep : createEdgeFunctionsStep (m, f) r = (m, f + 1) := by
          simp [createEdgeFunctionsStep, h, hio]
        rw [hstep, ih m (f + 1)]
        simp only [List.length_cons]
        omega
      · have hstep : createEdgeFunctionsStep (m, f) r = (m + 1, f) := by
          simp [createEdgeFunctionsStep, h, hio]
        rw [hstep, ih (m + 1) f]
        simp only [List.length_cons]
        omega
    · have hstep : createEdgeFunctionsStep (m, f) r = (m, f) := by
        simp [createEdgeFunctionsStep, h]
      rw [hstep, ih m f, List.filter_cons_of_neg (by simpa using h)]

/-- C8: after the orchestrator has processed every aggregated record, the
migrated and failed counters sum to the number of records whose trigger
type has a registered template — each such record increments exactly one of
the two counters, records with no template (skipped with a warning)
increment neither — and therefore `migrated + failed ≤ total`, where
`total` is the number of aggregated records. -/
theorem c8_report_invariant (records : List MRecord) :
    (createEdgeFunctions records).1 + (createEdgeFunctions records).2
      = (records.filter
          (fun r => (generateEdgeFunctionTemplate r.type).isSome)).length
    ∧ (createEdgeFunctions records).1 + (createEdgeFunctions records).2
      ≤ records.length := by
  have h := createEdgeFunctions_foldl records 0 0
  simp only [Nat.zero_add] at h
  exact ⟨h, h.trans_le (List.length_filter_le _ records)⟩

/-- Every pattern-registry key that produces a record yields a trigger type
with a registered generator template (checked over the whole registry). -/
theorem recordType_templates :
    patternKeys.all (fun k => (recordTypeOfKey k).elim true
      (fun v => templatesKeys.contains v)) = true := by decide

/-- C9: a record the scanner produces from any key of the pattern registry
has a type among the seven registered template keys — the handler pattern
families yield no record at all — so `generateEdgeFunction` never takes its
null branch on a scanner-produced record. -/
theorem c9_scanner_types (key t : String)
    (hk : key ∈ patternKeys)
    (ht : recordTypeOfKey key = some t) :
    templatesKeys.contains t = true
    ∧ (generateEdgeFunctionTemplate t).isSome = true := by
  have h := List.all_eq_true.mp recordType_templates key hk
  rw [ht] at h
  simp only [Option.elim] at h
  refine ⟨h, ?_⟩
  unfold generateEdgeFunctionTemplate
  rw [if_pos h]
  rfl

/-- Witness for C9 at the `scheduled_factory` pattern key (the one key
whose `normalizeType` image alone would fall outside the template set and
which relies on the override chain). -/
theorem c9_scanner_types_witness :
    ((("scheduled_factory") ∈ patternKeys)
      ∧ recordTypeOfKey ("scheduled_factory") = some (("scheduler")))
    ∧ (templatesKeys.contains (("scheduler")) = true
      ∧ (generateEdgeFunctionTemplate (("scheduler"))).isSome = true) :=
  ⟨⟨by decide, by decide⟩,
   c9_scanner_types ("scheduled_factory") ("scheduler") (by decide) (by decide)⟩

/-- A text without an open brace leaves the extractor scan in its
not-yet-in-function state: the body stays as accumulated and no break
fires. -/
theorem extractLoop_no_open :
    ∀ (l : List Char) (d : Int) (b : List Char), '{' ∉ l →
      extractLoop l d false b = (b, false) := by
  intro l
  induction l with
  | nil => intro d b _; rfl
  | cons c rest ih =>
    intro d b h
    rw [List.mem_cons] at h
    push_neg at h
    obtain ⟨hc, hrest⟩ := h
    have hc' : c ≠ '{' := fun hh => hc hh.symm
    have ihh : ∀ (d : Int) (b : List Char), extractLoop rest d false b = (b, false) :=
      fun d b => ih d b hrest
    by_cases hcc : c = '}'
    · subst hcc
      simp [extractLoop, hc', ihh]
    · simp [extractLoop, hc', hcc, ihh]

/-- C10: when no open brace occurs at or after the start offset, the body
extractor returns the empty string, and the scanner's minimal-length filter
(`body && body.length > 10`, line 237) rejects it, so no record is emitted
for the match. -/
theorem c10_no_open_brace (content : List Char) (startIndex : Nat)
    (h : '{' ∉ content.drop startIndex) :
    extractFunctionBody content startIndex = []
    ∧ bodyFilterPass (extractFunctionBody content startIndex) = false := by
  have h1 : extractFunctionBody content startIndex = [] := by
    unfold extractFunctionBody
    rw [extractLoop_no_open _ _ _ h]
  exact ⟨h1, by rw [h1]; rfl⟩

/-- Witness for C10 on a concrete brace-free text. -/
theorem c10_no_open_brace_witness :
    ('{' ∉ (['a', '}'] : List Char).drop 0)
    ∧ (extractFunctionBody (['a', '}']) 0 = []
      ∧ bodyFilterPass (extractFunctionBody (['a', '}']) 0) = false) :=
  ⟨by decide, c10_no_open_brace (['a', '}']) 0 (by decide)⟩

end MigrateFunctions

namespace MigrateFunctions

/-- Open and close braces are distinct characters. -/
theorem braceNe : ('{' : Char) ≠ '}' := by decide

/-- Close and open braces are distinct characters. -/
theorem braceNe2 : ('}' : Char) ≠ '{' := by decide

/-- Character counts distribute over list append. -/
theorem countCh_append (x : Char) (a b : List Char) :
    countCh x (a ++ b) = countCh x a + countCh x b := by
  induction a with
  | nil => simp [countCh]
  | cons c cs ih =>
    simp only [List.cons_append, countCh, List.append_eq, ih]
    omega

/-- Character count of a one-element list. -/
theorem countCh_single (x c : Char) : countCh x [c] = if c = x then 1 else 0 := by
  simp [countCh]

/-- Appending on the right keeps the head of a non-empty list. -/
theorem head?_append_some {b : List Char} {x : Char} (h : b.head? = some x)
    (t : List Char) : (b ++ t).head? = some x := by
  cases b with
  | nil => simp at h
  | cons c cs => simpa using h

/-- The inFunction phase of the extractor scan: starting from a body that
begins with an open brace and whose brace surplus equals the depth counter,
if the loop exits through the depth-zero break then the final body has
equally many open and close braces, starts with the open brace, and ends
with the close brace that balanced it. -/
theorem extractLoop_break_ok :
    ∀ (l : List Char) (d : Int) (b : List Char),
      1 ≤ d →
      (countCh '{' b : Int) - (countCh '}' b : Int) = d →
      b.head? = some '{' →
      (extractLoop l d true b).2 = true →
      countCh '{' (extractLoop l d true b).1 = countCh '}' (extractLoop l d true b).1
      ∧ (extractLoop l d true b).1.head? = some '{'
      ∧ (extractLoop l d true b).1.getLast? = some '}' := by
  intro l
  induction l with
  | nil =>
    intro d b _ _ _ hbrk
    simp [extractLoop] at hbrk
  | cons c rest ih =>
    intro d b hd hbal hh hbrk
    by_cases hc : c = '{'
    · subst hc
      rw [show extractLoop ('{' :: rest) d true b
          = extractLoop rest (d + 1) true (b ++ ['{']) from by
        simp [extractLoop, braceNe]] at hbrk ⊢
      refine ih (d + 1) (b ++ ['{']) (by omega) ?_ (head?_append_some hh _) hbrk
      simp only [countCh_append, countCh_single, if_pos rfl, if_neg braceNe]
      push_cast
      omega
    · by_cases hc2 : c = '}'
      · subst hc2
        by_cases hone : d - 1 = 0
        · rw [show extractLoop ('}' :: rest) d true b = (b ++ ['}'], true) from by
            simp [extractLoop, braceNe2, hone]]
          refine ⟨?_, head?_append_some hh _, by simp⟩
          have h1 : countCh '{' b = countCh '}' b + 1 := by omega
          simp [countCh_append, countCh_single, braceNe2]
          omega
        · rw [show extractLoop ('}' :: rest) d true b
              = extractLoop rest (d - 1) true (b ++ ['}']) from by
            simp [extractLoop, braceNe2, hone]] at hbrk ⊢
          refine ih (d - 1) (b ++ ['}']) (by omega) ?_ (head?_append_some hh _) hbrk
          simp only [countCh_append, countCh_single, if_pos rfl, if_neg braceNe2]
          push_cast
          omega
      · rw [show extractLoop (c :: rest) d true b
            = extractLoop rest d true (b ++ [c]) from by
          simp [extractLoop, hc, hc2]] at hbrk ⊢
        refine ih d (b ++ [c]) hd ?_ (head?_append_some hh _) hbrk
        simp only [countCh_append, countCh_single, if_neg hc, if_neg hc2]
        push_cast
        omega

/-- Characters that are neither brace are skipped by the scan before the
first open brace. -/
theorem extractLoop_skip :
    ∀ (pre l : List Char), (∀ c ∈ pre, c ≠ '{' ∧ c ≠ '}') →
      extractLoop (pre ++ l) 0 false [] = extractLoop l 0 false [] := by
  intro pre
  induction pre with
  | nil => intro l _; rfl
  | cons c cs ih =>
    intro l h
    have hc := h c (List.mem_cons_self c cs)
    have hcs : ∀ x ∈ cs, x ≠ '{' ∧ x ≠ '}' :=
      fun x hx => h x (List.mem_cons_of_mem c hx)
    rw [List.cons_append,
      show extractLoop (c :: (cs ++ l)) 0 false [] = extractLoop (cs ++ l) 0 false []
        from by simp [extractLoop, hc.1, hc.2]]
    exact ih l hcs

/-- The first open brace puts the scan into the inFunction phase at depth
one with the brace as accumulated body. -/
theorem extractLoop_start (suf : List Char) :
    extractLoop ('{' :: suf) 0 false [] = extractLoop suf 1 true ['{'] := rfl

/-- C5 counterexample: at the source text consisting of the single
character open-brace and offset 0, the extractor returns that single
character: the open count is 1, the close count 0, and the body does not
end with a close brace, refuting the claim as stated for every text and
offset. -/
theorem c5_counterexample :
    extractFunctionBody (['{']) 0 = ['{']
    ∧ countCh '{' (extractFunctionBody (['{']) 0)
        ≠ countCh '}' (extractFunctionBody (['{']) 0)
    ∧ (extractFunctionBody (['{']) 0).getLast? ≠ some '}' := by decide

/-- C5 (amended): for every source text and start offset such that no close
brace occurs between the offset and the first open brace at or after it,
and the scan from that open brace exits through its depth-zero break (a
matching close brace exists), the returned body has an equal count of open
and close braces, starts with the open brace and ends with the matching
close brace; otherwise the extractor may return an empty or unbalanced
prefix. -/
theorem c5_extraction_balance_amended (content : List Char) (startIndex : Nat)
    (pre suf : List Char)
    (hsplit : content.drop startIndex = pre ++ '{' :: suf)
    (hpre : ∀ c ∈ pre, c ≠ '{' ∧ c ≠ '}')
    (hbrk : (extractLoop ('{' :: suf) 0 false []).2 = true) :
    countCh '{' (extractFunctionBody content startIndex)
      = countCh '}' (extractFunctionBody content startIndex)
    ∧ (extractFunctionBody content startIndex).head? = some '{'
    ∧ (extractFunctionBody content startIndex).getLast? = some '}' := by
  have e1 : extractFunctionBody content startIndex
      = (extractLoop suf 1 true ['{']).1 := by
    unfold extractFunctionBody
    rw [hsplit, extractLoop_skip pre _ hpre, extractLoop_start]
  rw [extractLoop_start] at hbrk
  have h := extractLoop_break_ok suf 1 ['{'] (by omega)
    (by decide) rfl hbrk
  rw [e1]
  exact h

/-- Witness for C5 on a concrete text with a leading non-brace character
and a balanced block. -/
theorem c5_extraction_balance_amended_witness :
    ((['a', '{', '}'] : List Char).drop 0 = ['a'] ++ '{' :: ['}']
      ∧ (∀ c ∈ (['a'] : List Char), c ≠ '{' ∧ c ≠ '}')
      ∧ (extractLoop ('{' :: ['}']) 0 false []).2 = true)
    ∧ (countCh '{' (extractFunctionBody (['a', '{', '}']) 0)
        = countCh '}' (extractFunctionBody (['a', '{', '}']) 0)
      ∧ (extractFunctionBody (['a', '{', '}']) 0).head? = some '{'
      ∧ (extractFunctionBody (['a', '{', '}']) 0).getLast? = some '}') :=
  ⟨⟨by decide, by decide, by decide⟩,
   c5_extraction_balance_amended (['a', '{', '}']) 0 (['a']) (['}'])
     (by decide) (by decide) (by decide)⟩

end MigrateFunctions

namespace MigrateFunctions

/-- A matched literal accounts exactly for the consumed length. -/
theorem dropLit_length :
    ∀ (pat s r : List Char), dropLit pat s = some r →
      r.length + pat.length = s.length := by
  intro pat
  induction pat with
  | nil =>
    intro s r h
    rw [dropLit] at h
    cases h
    simp
  | cons p ps ih =>
    intro s r h
    cases s with
    | nil => rw [dropLit] at h; cases h
    | cons c cs =>
      rw [dropLit] at h
      split at h
      · have := ih cs r h
        simp only [List.length_cons]
        omega
      · cases h

/-- Matching one expected character consumes it. -/
theorem expectChar_length {p : Char → Bool} {s : List Char} {g : Char × List Char}
    (h : expectChar p s = some g) : g.2.length < s.length := by
  cases s with
  | nil => rw [expectChar] at h; cases h
  | cons a as =>
    rw [expectChar] at h
    split at h
    · cases h; simp
    · cases h

/-- Dropping a satisfied run never lengthens a list. -/
theorem dropWhile_len_le (p : Char → Bool) :
    ∀ s : List Char, (s.dropWhile p).length ≤ s.length := by
  intro s
  induction s with
  | nil => simp
  | cons c cs ih =>
    rw [List.dropWhile_cons]
    split
    · exact Nat.le_succ_of_le ih
    · simp

/-- A non-empty matched run consumes at least one character. -/
theorem takeRun_length {p : Char → Bool} {s : List Char} {g : List Char × List Char}
    (h : takeRun p s = some g) : g.2.length < s.length := by
  simp only [takeRun] at h
  split at h
  · cases h
  · rename_i hw
    cases h
    cases s with
    | nil => simp [List.takeWhile] at hw
    | cons c cs =>
      rw [List.takeWhile_cons] at hw
      rw [List.dropWhile_cons]
      by_cases hpc : p c
      · simp only [hpc, if_true]
        exact Nat.lt_succ_of_le (dropWhile_len_le p cs)
      · simp [hpc] at hw

/-- The collection rule consumes part of its input. -/
theorem matchCollection_length {s : List Char} {g : List Char × List Char}
    (h : matchCollection s = some g) : g.2.length < s.length := by
  unfold matchCollection at h
  cases h1 : dropLit litCollection s with
  | none => rw [h1] at h; cases h
  | some s1 =>
    rw [h1] at h
    simp only [Option.bind_eq_bind, Option.some_bind] at h
    cases h2 : expectChar isQuoteChar s1 with
    | none => rw [h2] at h; cases h
    | some r2 =>
      rw [h2] at h
      simp only [Option.some_bind] at h
      cases h3 : takeRun isWordChar r2.2 with
      | none => rw [h3] at h; cases h
      | some r3 =>
        rw [h3] at h
        simp only [Option.some_bind] at h
        cases h4 : expectChar isQuoteChar r3.2 with
        | none => rw [h4] at h; cases h
        | some r4 =>
          rw [h4] at h
          simp only [Option.some_bind] at h
          cases h5 : expectChar (fun c => c == ')') r4.2 with
          | none => rw [h5] at h; cases h
          | some r5 =>
            rw [h5] at h
            simp only [Option.some_bind] at h
            cases h
            have l1 := dropLit_length litCollection s s1 h1
            have l2 := expectChar_length h2
            have l3 := takeRun_length h3
            have l4 := expectChar_length h4
            have l5 := expectChar_length h5
            have : 0 < litCollection.length := by decide
            show r5.2.length < s.length
            omega

/-- The doc rule consumes part of its input. -/
theorem matchDoc_length {s : List Char} {g : List Char × List Char}
    (h : matchDoc s = some g) : g.2.length < s.length := by
  unfold matchDoc at h
  cases h1 : dropLit litDoc s with
  | none => rw [h1] at h; cases h
  | some s1 =>
    rw [h1] at h
    simp only [Option.bind_eq_bind, Option.some_bind] at h
    cases h2 : expectChar isQuoteChar s1 with
    | none => rw [h2] at h; cases h
    | some r2 =>
      rw [h2] at h
      simp only [Option.some_bind] at h
      cases h3 : takeRun (fun c => !isQuoteChar c) r2.2 with
      | none => rw [h3] at h; cases h
      | some r3 =>
        rw [h3] at h
        simp only [Option.some_bind] at h
        cases h4 : expectChar isQuoteChar r3.2 with
        | none => rw [h4] at h; cases h
        | some r4 =>
          rw [h4] at h
          simp only [Option.some_bind] at h
          cases h5 : expectChar (fun c => c == ')') r4.2 with
          | none => rw [h5] at h; cases h
          | some r5 =>
            rw [h5] at h
            simp only [Option.some_bind] at h
            cases h
            have l1 := dropLit_length litDoc s s1 h1
            have l2 := expectChar_length h2
            have l3 := takeRun_length h3
            have l4 := expectChar_length h4
            have l5 := expectChar_length h5
            have : 0 < litDoc.length := by decide
            show r5.2.length < s.length
            omega

/-- The status rule consumes part of its input. -/
theorem matchStatus_length {s : List Char} {g : List Char × List Char}
    (h : matchStatus s = some g) : g.2.length < s.length := by
  unfold matchStatus at h
  cases h1 : dropLit litStatus s with
  | none => rw [h1] at h; cases h
  | some s1 =>
    rw [h1] at h
    simp only [Option.bind_eq_bind, Option.some_bind] at h
    cases h2 : takeRun Char.isDigit s1 with
    | none => rw [h2] at h; cases h
    | some r2 =>
      rw [h2] at h
      simp only [Option.some_bind] at h
      cases h3 : dropLit litStatusTail r2.2 with
      | none => rw [h3] at h; cases h
      | some s3 =>
        rw [h3] at h
        simp only [Option.some_bind] at h
        cases h
        have l1 := dropLit_length litStatus s s1 h1
        have l2 := takeRun_length h2
        have l3 := dropLit_length litStatusTail r2.2 s3 h3
        have : 0 < litStatus.length := by decide
        show s3.length < s.length
        omega

/-- Every well-formed rule consumes at least one character when it
matches. -/
theorem applyRuleAt_consumes {r : Rule} {s : List Char} {g : List Char × List Char}
    (hwf : ruleWf r = true) (h : applyRuleAt r s = some g) :
    g.2.length < s.length := by
  cases r with
  | lit pat rep =>
    simp only [applyRuleAt, Option.map_eq_some'] at h
    obtain ⟨rest, hrest, hg⟩ := h
    have hlen := dropLit_length pat s rest hrest
    have hpat : pat ≠ [] := by
      cases pat with
      | nil => simp [ruleWf] at hwf
      | cons a as => simp
    have hpos : 0 < pat.length := List.length_pos.mpr hpat
    rw [← hg]
    show rest.length < s.length
    omega
  | collectionRule => exact matchCollection_length h
  | docRule => exact matchDoc_length h
  | statusRule => exact matchStatus_length h

/-- The replacement scan of a well-formed rule finishes within fuel equal
to the input length. -/
theorem replaceScan_total (r : Rule) (hwf : ruleWf r = true) :
    ∀ (fuel : Nat) (s : List Char), s.length ≤ fuel →
      ∃ t, replaceScan r fuel s = some t := by
  intro fuel
  induction fuel with
  | zero =>
    intro s hs
    have hnil : s = [] := List.length_eq_zero.mp (Nat.le_zero.mp hs)
    subst hnil
    exact ⟨[], rfl⟩
  | succ n ih =>
    intro s hs
    cases s with
    | nil => exact ⟨[], rfl⟩
    | cons c cs =>
      rw [replaceScan]
      cases hap : applyRuleAt r (c :: cs) with
      | none =>
        obtain ⟨t, ht⟩ := ih cs (by simp at hs; omega)
        exact ⟨c :: t, by rw [ht]; rfl⟩
      | some g =>
        have hlen := applyRuleAt_consumes hwf hap
        obtain ⟨t, ht⟩ := ih g.2 (by simp at hs hlen; omega)
        refine ⟨g.1 ++ t, ?_⟩
        show Option.map (fun t => g.1 ++ t) (replaceScan r n g.2) = some (g.1 ++ t)
        rw [ht]
        rfl

/-- Every rule of the table is well-formed. -/
theorem rules_wf : rules.all ruleWf = true := by decide

/-- Running a table of well-formed rules always yields a result. -/
theorem runRules_total :
    ∀ (rs : List Rule), rs.all ruleWf = true →
      ∀ s : List Char, ∃ t, runRules rs s = some t := by
  intro rs
  induction rs with
  | nil => intro _ s; exact ⟨s, rfl⟩
  | cons r rest ih =>
    intro hall s
    rw [List.all_cons, Bool.and_eq_true] at hall
    obtain ⟨t, ht⟩ := replaceScan_total r hall.1 s.length s (Nat.le_refl _)
    obtain ⟨u, hu⟩ := ih hall.2 t
    refine ⟨u, ?_⟩
    rw [runRules, runRule, ht]
    exact hu

/-- C6: for every input body, the API Rewriter terminates and returns a
string: each of the sixteen replacement scans of
`convertFirebaseToSupabase` finishes within fuel equal to its input length
(no scan step can get stuck), and the residual-marker pass is a plain
conditional prepend, so the whole rewrite always produces a result and
never fails. -/
theorem c6_rewrite_total (code : List Char) :
    ∃ out, convertFirebaseToSupabase code = some out := by
  obtain ⟨post, hp⟩ := runRules_total rules rules_wf code
  refine ⟨addReviewMarkers post, ?_⟩
  rw [convertFirebaseToSupabase, hp]
  rfl

/-- A list prefix stays a prefix after extending the list on the right. -/
theorem isPrefixL_append_right :
    ∀ (p q s : List Char), isPrefixL p q = true → isPrefixL p (q ++ s) = true := by
  intro p
  induction p with
  | nil => intro q s _; rfl
  | cons a as ih =>
    intro q s h
    cases q with
    | nil => rw [isPrefixL] at h; cases h
    | cons c cs =>
      rw [List.cons_append]
      rw [isPrefixL] at h ⊢
      split at h
      · rename_i hac
        rw [if_pos hac]
        exact ih cs s h
      · cases h

/-- A substring occurrence survives prepending text on the left. -/
theorem containsSub_append_left :
    ∀ (pat t s : List Char), containsSub pat s = true →
      containsSub pat (t ++ s) = true := by
  intro pat t
  induction t with
  | nil => intro s h; simpa using h
  | cons c cs ih =>
    intro s h
    rw [List.cons_append, containsSub, ih s h, Bool.or_true]

/-- The admin review marker starts with the common marker head. -/
theorem markerAdmin_head : isPrefixL reviewMarkerHead reviewMarkerAdmin = true := by
  decide

/-- The functions review marker starts with the common marker head. -/
theorem markerFunctions_head :
    isPrefixL reviewMarkerHead reviewMarkerFunctions = true := by decide

/-- A text with either residual token comes out of the marker pass with a
review marker at its front. -/
theorem addReviewMarkers_marked {post : List Char}
    (hres : containsSub adminTok post = true ∨ containsSub functionsTok post = true) :
    isPrefixL reviewMarkerHead (addReviewMarkers post) = true := by
  simp only [addReviewMarkers]
  by_cases ha : containsSub adminTok post = true
  · rw [if_pos ha]
    by_cases hf : containsSub functionsTok (reviewMarkerAdmin ++ post) = true
    · rw [if_pos hf]
      exact isPrefixL_append_right _ _ _ markerFunctions_head
    · rw [if_neg hf]
      exact isPrefixL_append_right _ _ _ markerAdmin_head
  · rw [if_neg ha]
    have hfp : containsSub functionsTok post = true := hres.resolve_left ha
    rw [if_pos hfp]
    exact isPrefixL_append_right _ _ _ markerFunctions_head

/-- The marker pass only prepends, so every substring of its input is a
substring of its output. -/
theorem addReviewMarkers_keeps {post call : List Char}
    (h : containsSub call post = true) :
    containsSub call (addReviewMarkers post) = true := by
  simp only [addReviewMarkers]
  by_cases ha : containsSub adminTok post = true
  · rw [if_pos ha]
    have h1 := containsSub_append_left call reviewMarkerAdmin post h
    by_cases hf : containsSub functionsTok (reviewMarkerAdmin ++ post) = true
    · rw [if_pos hf]
      exact containsSub_append_left _ _ _ h1
    · rw [if_neg hf]
      exact h1
  · rw [if_neg ha]
    by_cases hf : containsSub functionsTok post = true
    · rw [if_pos hf]
      exact containsSub_append_left _ _ _ h
    · rw [if_neg hf]
      exact h

/-- C7: when the body left by the rewrite rules still contains a residual
source-platform namespace token ("admin." or "functions."), the rewriter's
output is prefixed with the review-marker comment and any text occurring in
the post-rules body — in particular the unrewritten call itself — still
occurs verbatim in the output (the marker pass only prepends, it deletes
nothing). -/
theorem c7_residual_marker (code post call : List Char)
    (hrun : runRules rules code = some post)
    (hres : containsSub adminTok post = true ∨ containsSub functionsTok post = true)
    (hcall : containsSub call post = true) :
    ∃ out, convertFirebaseToSupabase code = some out
      ∧ isPrefixL reviewMarkerHead out = true
      ∧ containsSub call out = true := by
  refine ⟨addReviewMarkers post, ?_, ?_, ?_⟩
  · rw [convertFirebaseToSupabase, hrun]
    rfl
  · exact addReviewMarkers_marked hres
  · exact addReviewMarkers_keeps hcall

/-- Witness for C7 on a concrete body that no rewrite rule touches and
that contains a residual "admin." call. -/
theorem c7_residual_marker_witness :
    (runRules rules residualBody = some residualBody
      ∧ containsSub adminTok residualBody = true
      ∧ containsSub residualBody residualBody = true)
    ∧ (∃ out, convertFirebaseToSupabase residualBody = some out
        ∧ isPrefixL reviewMarkerHead out = true
        ∧ containsSub residualBody out = true) :=
  ⟨⟨by decide, by decide, by decide⟩,
   c7_residual_marker residualBody residualBody residualBody (by decide)
     (Or.inl (by decide)) (by decide)⟩

end MigrateFunctions
